import Mathlib

/-!
Verification of the riverflow-log-viewer core (src/log_viewer_ui.py).

Python text is modelled as a `List Char` (called `Str` below); Python's
`str.lower` is modelled per character with `Char.toLower`, and Python's
substring test `a in b` by `containsSub`.  The `LogViewer` widget's state is
the record `LogViewer`; its methods `add_line`, `refresh_display`,
`set_search`, `set_filter`, `clear_search`, `clear_filter` and the app action
`action_clear_log` are translated as pure state transformers.  The regular
expression substitution in `_highlight_search` (a literal, case-insensitive
pattern) is translated by the left-to-right leftmost-match scan `subCIAux`:
a skip counter carries the remainder of a consumed match so the recursion is
structural.  The mode machine of `LogViewerApp` (`on_key`,
`on_input_submitted`, `start_process`) is translated over an `AppState`
record; external effects (a spawn attempt, a write to the child's stdin)
are represented by explicit boolean outcomes passed as arguments, and the
wall-clock timestamp by a `Nat` argument.  The stream readers
`_read_stream_thread` and `_read_output_unix` are translated as functions
over the sequence of read results their loops observe.
-/

abbrev Str := List Char

/-- Python `s.lower()`, per character. -/
def lowerStr (s : Str) : Str := s.map Char.toLower

/-- Characters removed by `content.rstrip("\n\r")` in `LogViewer.add_line`. -/
def isNlCr (c : Char) : Bool := c == '\n' || c == '\r'

/-- Python `content.rstrip("\n\r")`: strip trailing newlines and carriage returns. -/
def rstripNlCr (s : Str) : Str := (s.reverse.dropWhile isNlCr).reverse

def optIsNlCr : Option Char → Bool
  | some c => isNlCr c
  | none => false

/-- Whether a string ends in a newline or carriage return. -/
def endsWithNlCr (s : Str) : Bool := optIsNlCr s.getLast?

/-- Python substring test `needle in hay`. -/
def containsSub : Str → Str → Bool
  | needle, [] => needle.isPrefixOf []
  | needle, c :: rest => needle.isPrefixOf (c :: rest) || containsSub needle rest

/-- The `Mode` enum of log_viewer_ui.py. -/
inductive Mode where
  | NORMAL
  | INSERT
  | SEARCH
  | FILTER
deriving DecidableEq

/-- The `LogLine` dataclass: content, source tag, capture time, sequence number. -/
structure LogLine where
  content : Str
  source : Str
  timestamp : Nat
  line_number : Nat
deriving DecidableEq

/-- The mutable state of the `LogViewer` widget. -/
structure LogViewer where
  lines : List LogLine
  filtered_lines : List LogLine
  search_term : Str
  filter_term : Str
  line_counter : Nat
  auto_scroll : Bool
deriving DecidableEq

/-- `LogViewer.__init__`. -/
def LogViewer.init : LogViewer :=
  { lines := [], filtered_lines := [], search_term := [], filter_term := [],
    line_counter := 0, auto_scroll := true }

/-- The filtering pass of `LogViewer.refresh_display`: start from a copy of
`lines` and, when `filter_term` is nonempty, keep the lines whose lowered
content contains the lowered term. -/
def projectLines (v : LogViewer) : List LogLine :=
  let fl := v.lines
  if v.filter_term = [] then fl
  else fl.filter fun l => containsSub (lowerStr v.filter_term) (lowerStr l.content)

/-- `LogViewer.refresh_display`: recompute `filtered_lines` from `lines` and
the current terms (the widget mounting is rendering, not state). -/
def refresh_display (v : LogViewer) : LogViewer :=
  { v with filtered_lines := projectLines v }

/-- `LogViewer.add_line`: bump the counter, store the line with trailing
newlines stripped, refresh the display. -/
def add_line (v : LogViewer) (content : Str) (source : Str) (now : Nat) : LogViewer :=
  let counter := v.line_counter + 1
  let line : LogLine :=
    { content := rstripNlCr content, source := source, timestamp := now,
      line_number := counter }
  refresh_display { v with line_counter := counter, lines := v.lines ++ [line] }

/-- `LogViewer.set_search`. -/
def set_search (v : LogViewer) (term : Str) : LogViewer :=
  refresh_display { v with search_term := term }

/-- `LogViewer.set_filter`. -/
def set_filter (v : LogViewer) (term : Str) : LogViewer :=
  refresh_display { v with filter_term := term }

/-- `LogViewer.clear_search`. -/
def clear_search (v : LogViewer) : LogViewer :=
  refresh_display { v with search_term := [] }

/-- `LogViewer.clear_filter`. -/
def clear_filter (v : LogViewer) : LogViewer :=
  refresh_display { v with filter_term := [] }

/-- `LogViewerApp.action_clear_log`: clear both line lists, reset the
counter, refresh.  The search and filter terms are not touched. -/
def clear_log (v : LogViewer) : LogViewer :=
  refresh_display { v with lines := [], filtered_lines := [], line_counter := 0 }

/-- The opening Rich markup inserted by `_highlight_search`. -/
def openMark : Str := ("[black on yellow]").toList

/-- The closing Rich markup inserted by `_highlight_search`. -/
def closeMark : Str := ("[/black on yellow]").toList

/-- One parsed item of a `re.sub` replacement template: a literal character,
or a reference to group 0 (the whole match, written `\g&lt;0&gt;`; the pattern
`re.escape(term)` defines no other group, so every other group reference is
an error). -/
inductive TplItem where
  | lit (c : Char)
  | group0
deriving DecidableEq

/-- Parser state for a replacement template, consuming one character per
step: at the top level; right after a backslash (`esc`); after `\g`
expecting `&lt;` (`g1`); inside a `\g&lt;...&gt;` name before/after its first `0`
(`name0`/`name1`, the only name valid with no capture groups being a string
of zeros denoting group 0); after `\0` expecting up to two octal digits
(`oct0a`, then `oct0b` holding the first); after `\d` for a nonzero digit,
holding one then two digits (`dig1`, `dig2`) of a possible three-octal-digit
escape or of an invalid group reference. -/
inductive TplSt where
  | top
  | esc
  | g1
  | name0
  | name1
  | oct0a
  | oct0b (d1 : Char)
  | dig1 (c2 : Char)
  | dig2 (c2 d2 : Char)
deriving DecidableEq

/-- The character escapes `sre_parse.ESCAPES` recognised in a replacement
template. -/
def replEscape (c : Char) : Option Char :=
  if c = 'a' then some (Char.ofNat 7)
  else if c = 'b' then some (Char.ofNat 8)
  else if c = 'f' then some (Char.ofNat 12)
  else if c = 'n' then some (Char.ofNat 10)
  else if c = 'r' then some (Char.ofNat 13)
  else if c = 't' then some (Char.ofNat 9)
  else if c = 'v' then some (Char.ofNat 11)
  else if c = '\\' then some '\\'
  else none

def isOct (c : Char) : Bool := decide ('0' ≤ c ∧ c ≤ '7')

def octVal (c : Char) : Nat := c.toNat - ('0').toNat

/-- Python's `sre_parse.parse_template` for a pattern with no capture
groups, returning `none` where Python raises `re.error`.  After a
backslash: `\g&lt;zeros&gt;` refers to the whole match and any other group
reference (`\1`..`\99`, other `\g&lt;...&gt;` names) is an invalid group
reference; `\0` with up to two more octal digits, or three octal digits
`\ooo` up to 0o377, denote a character by code; the escapes of `replEscape`
denote their control characters; any other escaped ASCII letter is a bad
escape; an escaped non-letter is kept literally together with its
backslash; a trailing lone backslash is a bad escape. -/
def parseTplAux : TplSt → Str → Option (List TplItem)
  | TplSt.top, [] => some []
  | TplSt.esc, [] => none
  | TplSt.g1, [] => none
  | TplSt.name0, [] => none
  | TplSt.name1, [] => none
  | TplSt.oct0a, [] => some [TplItem.lit (Char.ofNat 0)]
  | TplSt.oct0b d1, [] => some [TplItem.lit (Char.ofNat (octVal d1))]
  | TplSt.dig1 _, [] => none
  | TplSt.dig2 _ _, [] => none
  | TplSt.top, c :: rest =>
    if c = '\\' then parseTplAux TplSt.esc rest
    else (parseTplAux TplSt.top rest).map (TplItem.lit c :: ·)
  | TplSt.esc, c :: rest =>
    if c = 'g' then parseTplAux TplSt.g1 rest
    else if c = '0' then parseTplAux TplSt.oct0a rest
    else if c.isDigit then parseTplAux (TplSt.dig1 c) rest
    else
      match replEscape c with
      | some ch => (parseTplAux TplSt.top rest).map (TplItem.lit ch :: ·)
      | none =>
        if c.isAlpha then none
        else
          (parseTplAux TplSt.top rest).map
            fun its => TplItem.lit '\\' :: TplItem.lit c :: its
  | TplSt.g1, c :: rest => if c = '<' then parseTplAux TplSt.name0 rest else none
  | TplSt.name0, c :: rest => if c = '0' then parseTplAux TplSt.name1 rest else none
  | TplSt.name1, c :: rest =>
    if c = '0' then parseTplAux TplSt.name1 rest
    else if c = '>' then (parseTplAux TplSt.top rest).map (TplItem.group0 :: ·)
    else none
  | TplSt.oct0a, c :: rest =>
    if isOct c then parseTplAux (TplSt.oct0b c) rest
    else if c = '\\' then
      (parseTplAux TplSt.esc rest).map (TplItem.lit (Char.ofNat 0) :: ·)
    else
      (parseTplAux TplSt.top rest).map
        fun its => TplItem.lit (Char.ofNat 0) :: TplItem.lit c :: its
  | TplSt.oct0b d1, c :: rest =>
    if isOct c then
      (parseTplAux TplSt.top rest).map
        (TplItem.lit (Char.ofNat (octVal d1 * 8 + octVal c)) :: ·)
    else if c = '\\' then
      (parseTplAux TplSt.esc rest).map (TplItem.lit (Char.ofNat (octVal d1)) :: ·)
    else
      (parseTplAux TplSt.top rest).map
        fun its => TplItem.lit (Char.ofNat (octVal d1)) :: TplItem.lit c :: its
  | TplSt.dig1 c2, c :: rest =>
    if c.isDigit then parseTplAux (TplSt.dig2 c2 c) rest else none
  | TplSt.dig2 c2 d2, c :: rest =>
    if isOct c2 && isOct d2 && isOct c then
      if octVal c2 * 64 + octVal d2 * 8 + octVal c ≤ 255 then
        (parseTplAux TplSt.top rest).map
          (TplItem.lit (Char.ofNat (octVal c2 * 64 + octVal d2 * 8 + octVal c)) :: ·)
      else none
    else none

def parseTemplate (s : Str) : Option (List TplItem) := parseTplAux TplSt.top s

/-- Expand a parsed replacement template at one match: literals stand for
themselves, a group-0 reference for the matched text. -/
def expandTemplate : List TplItem → Str → Str
  | [], _ => []
  | TplItem.lit c :: rest, m => c :: expandTemplate rest m
  | TplItem.group0 :: rest, m => m ++ expandTemplate rest m

/-- The scan performed by `re.sub(re.escape(term), repl, content,
flags=re.IGNORECASE)` for a nonempty literal pattern once the replacement
template `repl` has parsed to `items`: replace each leftmost
non-overlapping case-insensitive occurrence of `pat` by the template
expansion at the matched text.  The skip counter counts the characters of a
consumed match still to be passed over, which makes the recursion
structural in the subject string. -/
def subCIAux (pat : Str) (items : List TplItem) : Nat → Str → Str
  | _, [] => []
  | k + 1, _ :: rest => subCIAux pat items k rest
  | 0, c :: rest =>
    if (lowerStr pat).isPrefixOf (lowerStr (c :: rest)) then
      expandTemplate items (List.take pat.length (c :: rest))
        ++ subCIAux pat items (pat.length - 1) rest
    else
      c :: subCIAux pat items 0 rest

def subCI (pat : Str) (items : List TplItem) (s : Str) : Str := subCIAux pat items 0 s

/-- `LogViewer._highlight_search`: wrap each case-insensitive occurrence of
the search term in Rich highlight markup.  The replacement passed to
`re.sub` is the f-string embedding the user's search term between the two
marks, and Python processes backslash escapes in it, so the rendered match
is the template expansion of the whole replacement; a term making the
template invalid (for example one ending in `\p`) makes `re.sub` raise
`re.error`, modelled as `none`. -/
def highlight_search (content search_term : Str) : Option Str :=
  if search_term = [] then some content
  else
    (parseTemplate (openMark ++ search_term ++ closeMark)).map
      fun items => subCI search_term items content

/-- A segment of a highlighted line: either one character passed through
unchanged, or the source text of one matched occurrence. -/
inductive Seg where
  | plain (c : Char)
  | mark (s : Str)
deriving DecidableEq

/-- The same scan as `subCIAux`, but recording, for every match, the matched
source text instead of the replacement. -/
def segmentsCIAux (pat : Str) : Nat → Str → List Seg
  | _, [] => []
  | k + 1, _ :: rest => segmentsCIAux pat k rest
  | 0, c :: rest =>
    if (lowerStr pat).isPrefixOf (lowerStr (c :: rest)) then
      Seg.mark (List.take pat.length (c :: rest)) :: segmentsCIAux pat (pat.length - 1) rest
    else
      Seg.plain c :: segmentsCIAux pat 0 rest

def segmentsCI (pat s : Str) : List Seg := segmentsCIAux pat 0 s

/-- Reassemble the source text of a segmentation. -/
def flattenSegs : List Seg → Str
  | [] => []
  | Seg.plain c :: r => c :: flattenSegs r
  | Seg.mark s :: r => s ++ flattenSegs r

/-- Render a segmentation the way `_highlight_search` renders its matches:
each match becomes the expansion of the parsed replacement template at the
matched text (for a backslash-free term, the term wrapped in the marks). -/
def renderSegsTpl (items : List TplItem) : List Seg → Str
  | [] => []
  | Seg.plain c :: r => c :: renderSegsTpl items r
  | Seg.mark m :: r => expandTemplate items m ++ renderSegsTpl items r

/-- Every marked segment is a case-insensitive occurrence of the pattern. -/
def marksMatch (pat : Str) (segs : List Seg) : Bool :=
  segs.all fun sg =>
    match sg with
    | Seg.plain _ => true
    | Seg.mark m => lowerStr m == lowerStr pat

/-- Remove every occurrence of the two highlight marks from a rendered
line (used to compare a rendered line with the stored content). -/
def stripMarksAux : Nat → Str → Str
  | _, [] => []
  | k + 1, _ :: rest => stripMarksAux k rest
  | 0, c :: rest =>
    if openMark.isPrefixOf (c :: rest) then stripMarksAux (openMark.length - 1) rest
    else if closeMark.isPrefixOf (c :: rest) then stripMarksAux (closeMark.length - 1) rest
    else c :: stripMarksAux 0 rest

def stripMarks (s : Str) : Str := stripMarksAux 0 s

/-- The icon prefixed to a displayed line in `refresh_display`. -/
def sourceIcon (source : Str) : Str :=
  if source = ("stderr").toList then ("❌ ").toList
  else if source = ("system").toList then ("ℹ️  ").toList
  else if source = ("input").toList then ("➤ ").toList
  else []

/-- The CSS class chosen for a displayed line in `refresh_display`. -/
def styleClass (source : Str) : Str :=
  if source = ("stderr").toList then ("stderr").toList
  else if source = ("system").toList then ("system").toList
  else if source = ("input").toList then ("input").toList
  else ("stdout").toList

/-- The text of one displayed line, per the loop body of `refresh_display`:
highlight when the search term is nonempty and occurs in the content, then
prefix the source icon; `none` when the highlight raises `re.error`. -/
def displayLine (search_term : Str) (l : LogLine) : Option Str :=
  let contentOpt :=
    if search_term ≠ [] ∧ containsSub (lowerStr search_term) (lowerStr l.content) = true then
      highlight_search l.content search_term
    else some l.content
  contentOpt.map fun content => sourceIcon l.source ++ content

/-- Format a list of lines in order, propagating a raised `re.error`. -/
def displayAll (search_term : Str) : List LogLine → Option (List Str)
  | [] => some []
  | l :: rest =>
    match displayLine search_term l, displayAll search_term rest with
    | some s, some rest2 => some (s :: rest2)
    | _, _ => none

/-- The full displayed view: the filtered lines, each formatted; `none` when
formatting any surfaced line raises `re.error`. -/
def display (v : LogViewer) : Option (List Str) :=
  displayAll v.search_term (projectLines v)

/-- The state of `LogViewerApp` relevant to mode handling and process
lifecycle.  `process` models `self.process`: `none` when no `Popen` handle is
installed, `some b` when a handle exists, with `b` true exactly when
`poll() is None` (alive).  `stdinWrites` records the strings written to the
child's stdin.  `exited` becomes true when `self.exit()` is requested. -/
structure AppState where
  mode : Mode
  inputVisible : Bool
  inputValue : Str
  viewer : LogViewer
  process : Option Bool
  stdinWrites : List Str
  command_args : List Str
  exited : Bool
deriving DecidableEq

/-- A fresh application state before any process is started. -/
def appInit : AppState :=
  { mode := Mode.NORMAL, inputVisible := false, inputValue := [],
    viewer := LogViewer.init, process := none, stdinWrites := [],
    command_args := [], exited := false }

/-- `self.process and self.process.poll() is None`. -/
def processAlive (st : AppState) : Bool :=
  match st.process with
  | some true => true
  | _ => false

/-- `LogViewerApp.action_normal_mode`: back to NORMAL, hide the input bar. -/
def action_normal_mode (st : AppState) : AppState :=
  { st with mode := Mode.NORMAL, inputVisible := false }

/-- `LogViewerApp.action_insert_mode`. -/
def action_insert_mode (st : AppState) : AppState :=
  { st with mode := Mode.INSERT, inputVisible := true }

/-- `LogViewerApp.action_search_mode`: show the input bar and clear its value. -/
def action_search_mode (st : AppState) : AppState :=
  { st with mode := Mode.SEARCH, inputVisible := true, inputValue := [] }

/-- `LogViewerApp.action_filter_mode`: show the input bar and clear its value. -/
def action_filter_mode (st : AppState) : AppState :=
  { st with mode := Mode.FILTER, inputVisible := true, inputValue := [] }

/-- `LogViewerApp.on_input_submitted`.  `writeOk` tells whether the write to
the child's stdin raised; `errMsg` is the text of the raised exception. -/
def on_input_submitted (st : AppState) (value : Str) (writeOk : Bool)
    (errMsg : Str) (now : Nat) : AppState :=
  match st.mode with
  | Mode.INSERT =>
    let st2 :=
      if processAlive st then
        if writeOk then
          { st with
              stdinWrites := st.stdinWrites ++ [value ++ ['\n']],
              viewer := add_line st.viewer ((">>> ").toList ++ value) (("input").toList) now }
        else
          { st with
              viewer := add_line st.viewer (("Error sending input: ").toList ++ errMsg)
                (("stderr").toList) now }
      else st
    { st2 with inputValue := [] }
  | Mode.SEARCH => action_normal_mode { st with viewer := set_search st.viewer value }
  | Mode.FILTER => action_normal_mode { st with viewer := set_filter st.viewer value }
  | Mode.NORMAL => st

/-- The key events handled by `LogViewerApp.on_key`. -/
inductive KeyEvt where
  | escape
  | ctrl_c
  | other
deriving DecidableEq

/-- `LogViewerApp.on_key`. -/
def on_key (st : AppState) (k : KeyEvt) : AppState :=
  match k with
  | KeyEvt.escape =>
    if st.mode ≠ Mode.NORMAL then
      let st2 :=
        if st.mode = Mode.SEARCH ∨ st.mode = Mode.FILTER then
          { st with viewer := clear_filter (clear_search st.viewer) }
        else st
      action_normal_mode st2
    else st
  | KeyEvt.ctrl_c =>
    if st.mode = Mode.INSERT then action_normal_mode st
    else { st with exited := true }
  | KeyEvt.other => st

/-- `LogViewerApp.start_process`.  `spawnOk` tells whether `subprocess.Popen`
raised; `errMsg` is the text of the raised exception. -/
def start_process (st : AppState) (spawnOk : Bool) (errMsg : Str) (now : Nat) : AppState :=
  if processAlive st then st
  else if spawnOk then
    { st with
        process := some true,
        viewer := add_line st.viewer
          (("Started command: ").toList ++ List.intercalate ((" ").toList) st.command_args)
          (("system").toList) now }
  else
    { st with
        viewer := add_line st.viewer (("Failed to start command: ").toList ++ errMsg)
          (("stderr").toList) now }

/-- One observation of `stream.readline()` inside `_read_stream_thread`:
a line of data, end of stream, or a raised exception. -/
inductive ReadEvt where
  | line (s : Str)
  | eof
  | err (e : Str)
deriving DecidableEq

/-- `LogViewerApp._read_stream_thread`, as the list of `add_line` requests it
posts for a given sequence of read results on its single stream: it posts
each line until end of stream, and on an exception posts one error line
(sourced `"stderr"`) and stops reading that stream. -/
def read_stream_thread (source : Str) : List ReadEvt → List (Str × Str)
  | [] => []
  | ReadEvt.line s :: rest => (s, source) :: read_stream_thread source rest
  | ReadEvt.eof :: _ => []
  | ReadEvt.err e :: _ =>
    [(("Error reading ").toList ++ source ++ (": ").toList ++ e, ("stderr").toList)]

/-- The two polled streams of the Unix reader. -/
inductive UnixSrc where
  | stdout
  | stderr
deriving DecidableEq

def unixSrcName : UnixSrc → Str
  | UnixSrc.stdout => ("stdout").toList
  | UnixSrc.stderr => ("stderr").toList

/-- One iteration outcome of the `select`-based loop in `_read_output_unix`:
either a line became ready on one of the two streams, or the iteration
raised. -/
inductive UnixEvt where
  | ready (src : UnixSrc) (s : Str)
  | err (e : Str)
deriving DecidableEq

/-- `LogViewerApp._read_output_unix`, as the list of `add_line` requests it
posts for a given sequence of loop outcomes: each ready line is posted with
its stream's source tag; an exception posts one error line (sourced
`"stderr"`) and breaks out of the whole loop, ending the reading of both
streams. -/
def read_output_unix : List UnixEvt → List (Str × Str)
  | [] => []
  | UnixEvt.ready src s :: rest => (s, unixSrcName src) :: read_output_unix rest
  | UnixEvt.err e :: _ =>
    [(("Error reading output: ").toList ++ e, ("stderr").toList)]

/-- `LogViewerApp._read_remaining_output`: after exit, the whole remaining
text of each stream is posted as a single `add_line` request when nonempty. -/
def read_remaining_output (stdoutRem stderrRem : Str) : List (Str × Str) :=
  (if stdoutRem ≠ [] then [(stdoutRem, ("stdout").toList)] else [])
    ++ (if stderrRem ≠ [] then [(stderrRem, ("stderr").toList)] else [])

/-- Deliver a list of posted `add_line` requests to the viewer. -/
def postAll (v : LogViewer) (posts : List (Str × Str)) (now : Nat) : LogViewer :=
  posts.foldl (fun v p => add_line v p.1 p.2 now) v

/-- The buffer mutations of the single-writer log store: an `add_line`
request or a clear. -/
inductive BufOp where
  | append (content : Str) (source : Str) (now : Nat)
  | clear
deriving DecidableEq

def stepOp (v : LogViewer) : BufOp → LogViewer
  | BufOp.append c s t => add_line v c s t
  | BufOp.clear => clear_log v

/-- Run a sequence of buffer operations from the initial viewer state. -/
def runOps (ops : List BufOp) : LogViewer :=
  ops.foldl stepOp LogViewer.init

/-- Concrete app state: INSERT mode with a live process (for claim C3). -/
def stInsertAlive : AppState :=
  { appInit with mode := Mode.INSERT, process := some true }

/-- Concrete app state: INSERT mode with a search term set (for claim C4). -/
def stInsertWithSearch : AppState :=
  { appInit with
    mode := Mode.INSERT,
    viewer := { LogViewer.init with search_term := ['x'] } }

/-- The LogBuffer invariant: sequence numbers strictly increase along the
stored lines, and never exceed the current counter (so the next assigned
number, counter + 1, is fresh). -/
def bufferInv (v : LogViewer) : Prop :=
  List.Chain' (fun x y => x.line_number < y.line_number) v.lines
  ∧ ∀ l ∈ v.lines, l.line_number ≤ v.line_counter

theorem containsSub_nil_left : ∀ (hay : Str), containsSub [] hay = true
  | [] => rfl
  | _ :: _ => by simp [containsSub, List.isPrefixOf]

theorem take_of_isPrefixOf : ∀ (p l : Str), p.isPrefixOf l = true → List.take p.length l = p := by
  intro p
  induction p with
  | nil => intro l _; simp
  | cons a p ih =>
    intro l h
    cases l with
    | nil => simp [List.isPrefixOf] at h
    | cons b l2 =>
      simp only [List.isPrefixOf, Bool.and_eq_true, beq_iff_eq] at h
      obtain ⟨hab, hp⟩ := h
      simp [List.take_succ_cons, hab, ih l2 hp]

theorem optIsNlCr_head_dropWhile (l : Str) :
    optIsNlCr (l.dropWhile isNlCr).head? = false := by
  induction l with
  | nil => rfl
  | cons c l ih =>
    rw [List.dropWhile_cons]
    by_cases h : isNlCr c = true
    · simp [h, ih]
    · simp only [Bool.not_eq_true] at h
      simp [h, optIsNlCr]

theorem endsWith_rstripNlCr (s : Str) : endsWithNlCr (rstripNlCr s) = false := by
  unfold endsWithNlCr rstripNlCr
  rw [List.getLast?_reverse]
  exact optIsNlCr_head_dropWhile s.reverse

theorem flattenSegs_segmentsCIAux (pat : Str) (hpat : pat ≠ []) :
    ∀ (s : Str) (k : Nat), flattenSegs (segmentsCIAux pat k s) = List.drop k s := by
  intro s
  induction s with
  | nil => intro k; simp [segmentsCIAux, flattenSegs]
  | cons c rest ih =>
    intro k
    cases k with
    | succ k2 =>
      simp only [segmentsCIAux]
      rw [ih k2, List.drop_succ_cons]
    | zero =>
      rw [List.drop_zero]
      by_cases hp : (lowerStr pat).isPrefixOf (lowerStr (c :: rest)) = true
      · simp only [segmentsCIAux, if_pos hp, flattenSegs]
        obtain ⟨m, hm⟩ : ∃ m, pat.length = m + 1 := by
          cases pat with
          | nil => exact absurd rfl hpat
          | cons a t => exact ⟨t.length, rfl⟩
        rw [hm]
        simp only [Nat.add_sub_cancel]
        rw [ih m, List.take_succ_cons, List.cons_append, List.take_append_drop]
      · simp only [segmentsCIAux, if_neg hp, flattenSegs]
        rw [ih 0, List.drop_zero]

theorem marksMatch_segmentsCIAux (pat : Str) :
    ∀ (s : Str) (k : Nat), marksMatch pat (segmentsCIAux pat k s) = true := by
  intro s
  induction s with
  | nil => intro k; simp [segmentsCIAux, marksMatch]
  | cons c rest ih =>
    intro k
    cases k with
    | succ k2 =>
      simp only [segmentsCIAux]
      exact ih k2
    | zero =>
      by_cases hp : (lowerStr pat).isPrefixOf (lowerStr (c :: rest)) = true
      · have hlow : lowerStr (List.take pat.length (c :: rest)) = lowerStr pat := by
          have h1 := take_of_isPrefixOf (lowerStr pat) (lowerStr (c :: rest)) hp
          have h2 : (lowerStr pat).length = pat.length := by simp [lowerStr]
          rw [h2] at h1
          calc lowerStr (List.take pat.length (c :: rest))
              = List.take pat.length (lowerStr (c :: rest)) := by
                simp [lowerStr, List.map_take]
            _ = lowerStr pat := h1
        simp only [segmentsCIAux, if_pos hp, marksMatch, List.all_cons, Bool.and_eq_true]
        constructor
        · simp [hlow]
        · exact ih (pat.length - 1)
      · simp only [segmentsCIAux, if_neg hp, marksMatch, List.all_cons, Bool.and_eq_true]
        exact ⟨trivial, ih 0⟩

theorem renderSegsTpl_segmentsCIAux (pat : Str) (items : List TplItem) :
    ∀ (s : Str) (k : Nat),
      renderSegsTpl items (segmentsCIAux pat k s) = subCIAux pat items k s := by
  intro s
  induction s with
  | nil => intro k; simp [segmentsCIAux, subCIAux, renderSegsTpl]
  | cons c rest ih =>
    intro k
    cases k with
    | succ k2 =>
      simp only [segmentsCIAux, subCIAux]
      exact ih k2
    | zero =>
      by_cases hp : (lowerStr pat).isPrefixOf (lowerStr (c :: rest)) = true
      · simp only [segmentsCIAux, subCIAux, if_pos hp, renderSegsTpl]
        rw [ih (pat.length - 1)]
      · simp only [segmentsCIAux, subCIAux, if_neg hp, renderSegsTpl]
        rw [ih 0]

theorem expandTemplate_map_lit (m : Str) :
    ∀ (xs : Str), expandTemplate (xs.map TplItem.lit) m = xs := by
  intro xs
  induction xs with
  | nil => rfl
  | cons x xs ih => simp [expandTemplate, ih]

theorem parseTplAux_no_backslash :
    ∀ (s : Str), (s.all fun ch => !(ch == '\\')) = true →
      parseTplAux TplSt.top s = some (s.map TplItem.lit) := by
  intro s
  induction s with
  | nil => intro _; rfl
  | cons c rest ih =>
    intro h
    rw [List.all_cons, Bool.and_eq_true] at h
    obtain ⟨hc, hrest⟩ := h
    have hcne : ¬(c = '\\') := by
      intro he
      subst he
      simp at hc
    simp only [parseTplAux, if_neg hcne, ih hrest, Option.map_some', List.map_cons]

theorem chain_lt_append_singleton (l : List LogLine) (a : LogLine)
    (h1 : List.Chain' (fun x y => x.line_number < y.line_number) l)
    (h2 : ∀ x ∈ l, x.line_number < a.line_number) :
    List.Chain' (fun x y => x.line_number < y.line_number) (l ++ [a]) := by
  rw [List.chain'_append]
  refine ⟨h1, List.chain'_singleton a, ?_⟩
  intro x hx y hy
  simp only [List.head?_cons, Option.mem_def, Option.some.injEq] at hy
  subst hy
  exact h2 x (List.mem_of_mem_getLast? hx)

theorem bufferInv_add_line (v : LogViewer) (c s : Str) (t : Nat)
    (h : bufferInv v) : bufferInv (add_line v c s t) := by
  obtain ⟨h1, h2⟩ := h
  constructor
  · simp only [add_line, refresh_display]
    exact chain_lt_append_singleton _ _ h1 fun x hx => Nat.lt_succ_of_le (h2 x hx)
  · intro l hl
    simp only [add_line, refresh_display, List.mem_append, List.mem_singleton] at hl
    rcases hl with hmem | heq
    · exact Nat.le_succ_of_le (h2 l hmem)
    · subst heq; exact Nat.le_refl _

theorem bufferInv_clear (v : LogViewer) : bufferInv (clear_log v) := by
  constructor
  · simp [clear_log, refresh_display]
  · intro l hl
    simp [clear_log, refresh_display] at hl

theorem bufferInv_runOps (ops : List BufOp) : bufferInv (runOps ops) := by
  have key : ∀ (ops2 : List BufOp) (v : LogViewer),
      bufferInv v → bufferInv (ops2.foldl stepOp v) := by
    intro ops2
    induction ops2 with
    | nil => intro v h; exact h
    | cons op rest ih =>
      intro v h
      rw [List.foldl_cons]
      apply ih
      cases op with
      | append c s t => exact bufferInv_add_line v c s t h
      | clear => exact bufferInv_clear v
  apply key
  constructor
  · simp [LogViewer.init]
  · intro l hl
    simp [LogViewer.init] at hl

/-- Claim C1: for every sequence of append and clear operations, the stored
lines carry strictly increasing sequence numbers, every stored number is at
most the counter (so the next assigned number, counter + 1, is never a
reuse), each append goes to the end of the buffer with number counter + 1,
and a clear empties the buffer and resets the counter to zero so that the
first post-clear append is numbered 1. -/
theorem c1_append_order_and_sequence (ops : List BufOp) (c src : Str) (t : Nat) :
    List.Chain' (fun x y => x.line_number < y.line_number) (runOps ops).lines
    ∧ ((runOps ops).lines.all fun l =>
        decide (l.line_number ≤ (runOps ops).line_counter)) = true
    ∧ (runOps (ops ++ [BufOp.append c src t])).lines
        = (runOps ops).lines
          ++ [{ content := rstripNlCr c, source := src, timestamp := t,
                line_number := (runOps ops).line_counter + 1 }]
    ∧ (runOps (ops ++ [BufOp.clear])).lines = []
    ∧ (runOps (ops ++ [BufOp.clear])).line_counter = 0
    ∧ (runOps (ops ++ [BufOp.clear, BufOp.append c src t])).lines
        = [{ content := rstripNlCr c, source := src, timestamp := t,
             line_number := 1 }] := by
  obtain ⟨h1, h2⟩ := bufferInv_runOps ops
  refine ⟨h1, ?_, ?_, ?_, ?_, ?_⟩
  · simp only [List.all_eq_true, decide_eq_true_eq]
    exact h2
  · rw [runOps, List.foldl_append]
    simp [runOps, stepOp, add_line, refresh_display]
  · rw [runOps, List.foldl_append]
    simp [runOps, stepOp, clear_log, refresh_display]
  · rw [runOps, List.foldl_append]
    simp [runOps, stepOp, clear_log, refresh_display]
  · rw [runOps, List.foldl_append]
    simp [runOps, stepOp, clear_log, add_line, refresh_display]

/-- Claim C10: recomputing the projection, whether through refresh_display,
set_search, set_filter, clear_search or clear_filter, leaves the stored
lines and the sequence counter untouched. -/
theorem c10_projection_frame (v : LogViewer) (term : Str) :
    ((refresh_display v).lines = v.lines
      ∧ (refresh_display v).line_counter = v.line_counter)
    ∧ ((set_search v term).lines = v.lines
      ∧ (set_search v term).line_counter = v.line_counter)
    ∧ ((set_filter v term).lines = v.lines
      ∧ (set_filter v term).line_counter = v.line_counter)
    ∧ ((clear_search v).lines = v.lines
      ∧ (clear_search v).line_counter = v.line_counter)
    ∧ ((clear_filter v).lines = v.lines
      ∧ (clear_filter v).line_counter = v.line_counter) :=
  ⟨⟨rfl, rfl⟩, ⟨rfl, rfl⟩, ⟨rfl, rfl⟩, ⟨rfl, rfl⟩, ⟨rfl, rfl⟩⟩

/-- Claim C5: the projection keeps exactly the lines whose content contains
the filter term case-insensitively, in their original relative order
(a sublist of the buffer), and filtering is idempotent: projecting the
filtered result again with the same term changes nothing. -/
theorem c5_filter_exact_and_idempotent (v : LogViewer) (l : LogLine) :
    (l ∈ projectLines v
      ↔ l ∈ v.lines ∧ containsSub (lowerStr v.filter_term) (lowerStr l.content) = true)
    ∧ List.Sublist (projectLines v) v.lines
    ∧ projectLines { v with lines := projectLines v } = projectLines v := by
  refine ⟨?_, ?_, ?_⟩
  · by_cases hf : v.filter_term = []
    · simp [projectLines, hf, containsSub_nil_left, lowerStr]
    · simp [projectLines, hf, List.mem_filter]
  · by_cases hf : v.filter_term = []
    · simp only [projectLines, if_pos hf]
      exact List.Sublist.refl _
    · simp only [projectLines, if_neg hf]
      exact List.filter_sublist _
  · by_cases hf : v.filter_term = []
    · simp [projectLines, hf]
    · simp [projectLines, hf, List.filter_filter]

/-- Claim C6: projecting with both terms empty surfaces every buffered line
in its original order, and each displayed line is the stored content with
only the source icon prefixed, with no highlight markup inserted. -/
theorem c6_empty_terms_identity (v : LogViewer) :
    projectLines { v with filter_term := [], search_term := [] } = v.lines
    ∧ display { v with filter_term := [], search_term := [] }
        = some (v.lines.map fun l => sourceIcon l.source ++ l.content) := by
  constructor
  · simp [projectLines]
  · have key : ∀ (ls : List LogLine),
        displayAll [] ls = some (ls.map fun l => sourceIcon l.source ++ l.content) := by
      intro ls
      induction ls with
      | nil => rfl
      | cons l rest ih => simp [displayAll, displayLine, ih]
    simp [display, projectLines, key]

/-- Claim C2 (amended): for a nonempty search term the projection leaves the
stored lines unmutated and highlights exactly the leftmost non-overlapping
case-insensitive occurrences of the term: the scan's segmentation
reassembles to the original content and every marked segment is a
case-insensitive occurrence of the term.  When the replacement template
(the f-string embedding the term between the two marks) is valid, the
rendered text is the segmentation with each match replaced by the
template's expansion at that match, and when the template is invalid the
substitution raises `re.error` (both captured by the `Option.map`
equation); for a term with no backslash the template is valid and all
literal, so each match renders as the term's own text (the term's casing,
not the matched text's) wrapped in the highlight marks. -/
theorem c2_amended_highlight_marks_occurrences (v : LogViewer) (a : Char) (tl c m : Str) :
    (refresh_display v).lines = v.lines
    ∧ flattenSegs (segmentsCI (a :: tl) c) = c
    ∧ marksMatch (a :: tl) (segmentsCI (a :: tl) c) = true
    ∧ highlight_search c (a :: tl)
        = (parseTemplate (openMark ++ (a :: tl) ++ closeMark)).map
            (fun items => renderSegsTpl items (segmentsCI (a :: tl) c))
    ∧ (((a :: tl).all fun ch => !(ch == '\\')) = true →
        parseTemplate (openMark ++ (a :: tl) ++ closeMark)
          = some ((openMark ++ (a :: tl) ++ closeMark).map TplItem.lit))
    ∧ expandTemplate ((openMark ++ (a :: tl) ++ closeMark).map TplItem.lit) m
        = openMark ++ (a :: tl) ++ closeMark := by
  refine ⟨rfl, ?_, ?_, ?_, ?_, ?_⟩
  · have h := flattenSegs_segmentsCIAux (a :: tl) (List.cons_ne_nil a tl) c 0
    simpa [segmentsCI] using h
  · exact marksMatch_segmentsCIAux (a :: tl) c 0
  · rw [highlight_search, if_neg (List.cons_ne_nil a tl)]
    cases hpt : parseTemplate (openMark ++ (a :: tl) ++ closeMark) with
    | none => rfl
    | some items =>
      simp only [Option.map_some', Option.some.injEq]
      exact (renderSegsTpl_segmentsCIAux (a :: tl) items c 0).symm
  · intro hterm
    apply parseTplAux_no_backslash
    rw [List.all_append, List.all_append, Bool.and_eq_true, Bool.and_eq_true]
    refine ⟨⟨by decide, hterm⟩, by decide⟩
  · exact expandTemplate_map_lit m (openMark ++ (a :: tl) ++ closeMark)

/-- Claim C2 witness: at the concrete content "A" and search term "a"
(backslash-free), the highlight renders per the template equation and the
template parses to the all-literal replacement. -/
theorem c2_amended_highlight_witness :
    highlight_search (("A").toList) ['a']
      = (parseTemplate (openMark ++ ['a'] ++ closeMark)).map
          (fun items => renderSegsTpl items (segmentsCI ['a'] (("A").toList)))
    ∧ parseTemplate (openMark ++ ['a'] ++ closeMark)
        = some ((openMark ++ ['a'] ++ closeMark).map TplItem.lit) :=
  ⟨(c2_amended_highlight_marks_occurrences LogViewer.init 'a' [] (("A").toList) []).2.2.2.1,
   (c2_amended_highlight_marks_occurrences LogViewer.init 'a' [] (("A").toList) []).2.2.2.2.1
     (by decide)⟩

/-- Claim C2 counterexample: highlighting the content "A" with the search
term "a" produces the term's own lowercase casing inside the markup, so the
displayed text with the highlight marks removed is "a", not the stored
content "A": the displayed text does not differ from the content only by
the added marks. -/
theorem c2_counterexample_highlight_changes_case :
    (highlight_search (("A").toList) (("a").toList)).map stripMarks = some (("a").toList)
    ∧ ("a").toList ≠ ("A").toList := by
  constructor
  · decide
  · decide

/-- Claim C9 (amended): every line stored by add_line has its trailing
newline and carriage-return characters stripped, so stored content never
ends in a newline; interior newlines are not removed (see the
counterexample from the final drain). -/
theorem c9_amended_trailing_stripped (v : LogViewer) (c src : Str) (now : Nat) :
    (add_line v c src now).lines
      = v.lines ++ [{ content := rstripNlCr c, source := src, timestamp := now,
                      line_number := v.line_counter + 1 }]
    ∧ endsWithNlCr (rstripNlCr c) = false := by
  constructor
  · rfl
  · exact endsWith_rstripNlCr c

/-- Claim C9 counterexample: after process exit, _read_remaining_output
posts the whole remaining stdout text as a single add_line request, so the
remainder "a\nb\n" is stored as one LogLine whose content "a\nb" still
contains a newline character. -/
theorem c9_counterexample_drain_embedded_newline :
    (postAll LogViewer.init (read_remaining_output (("a\nb\n").toList) []) 0).lines.map
      (fun l => l.content) = [['a', '\n', 'b']]
    ∧ '\n' ∈ ['a', '\n', 'b'] := by
  constructor
  · decide
  · decide

/-- Claim C3 (amended): submitting text while in INSERT mode leaves the mode
in INSERT (it does not return to NORMAL); the input field's value is
cleared.  With a live process and a successful write, the text plus a
newline is written to the process stdin and an input-sourced line
">>> " + text is appended; if the write raises, a stderr-sourced (not
system-sourced) error line is appended and nothing is recorded as written;
with no live process nothing is appended and nothing is written. -/
theorem c3_amended_insert_submit (st : AppState) (v e : Str) (now : Nat)
    (ok : Bool) (p : Option Bool) :
    ((on_input_submitted { st with mode := Mode.INSERT, process := p } v ok e now).mode
        = Mode.INSERT)
    ∧ ((on_input_submitted { st with mode := Mode.INSERT, process := p } v ok e now).inputValue
        = [])
    ∧ ((on_input_submitted { st with mode := Mode.INSERT, process := some true } v true e
          now).stdinWrites
        = st.stdinWrites ++ [v ++ ['\n']])
    ∧ ((on_input_submitted { st with mode := Mode.INSERT, process := some true } v true e
          now).viewer.lines
        = st.viewer.lines
          ++ [{ content := rstripNlCr ((">>> ").toList ++ v), source := ("input").toList,
                timestamp := now, line_number := st.viewer.line_counter + 1 }])
    ∧ ((on_input_submitted { st with mode := Mode.INSERT, process := some true } v false e
          now).viewer.lines
        = st.viewer.lines
          ++ [{ content := rstripNlCr (("Error sending input: ").toList ++ e),
                source := ("stderr").toList, timestamp := now,
                line_number := st.viewer.line_counter + 1 }])
    ∧ ((on_input_submitted { st with mode := Mode.INSERT, process := some true } v false e
          now).stdinWrites
        = st.stdinWrites)
    ∧ ((on_input_submitted { st with mode := Mode.INSERT, process := none } v ok e
          now).viewer.lines
        = st.viewer.lines)
    ∧ ((on_input_submitted { st with mode := Mode.INSERT, process := none } v ok e
          now).stdinWrites
        = st.stdinWrites)
    ∧ ((on_input_submitted { st with mode := Mode.INSERT, process := some false } v ok e
          now).viewer.lines
        = st.viewer.lines) := by
  refine ⟨?_, ?_, ?_, ?_, ?_, ?_, ?_, ?_, ?_⟩ <;>
    rcases p with _ | _ | _ <;> cases ok <;>
      simp [on_input_submitted, processAlive, add_line, refresh_display]

/-- Claim C3 counterexample: in INSERT mode with a live process, submitting
"ping" succeeds but the application stays in INSERT mode, contradicting the
claimed transition to NORMAL. -/
theorem c3_counterexample_mode_stays_insert :
    (on_input_submitted stInsertAlive (("ping").toList) true [] 0).mode = Mode.INSERT
    ∧ Mode.INSERT ≠ Mode.NORMAL := by
  constructor
  · decide
  · decide

/-- Claim C4 (amended): Escape from SEARCH or FILTER returns to NORMAL,
hides the input field and clears both the search and the filter term;
Escape from INSERT returns to NORMAL and hides the input field but leaves
both terms exactly as they were. -/
theorem c4_amended_escape_behavior (st : AppState) :
    ((on_key { st with mode := Mode.SEARCH } KeyEvt.escape).mode = Mode.NORMAL)
    ∧ ((on_key { st with mode := Mode.SEARCH } KeyEvt.escape).inputVisible = false)
    ∧ ((on_key { st with mode := Mode.SEARCH } KeyEvt.escape).viewer.search_term = [])
    ∧ ((on_key { st with mode := Mode.SEARCH } KeyEvt.escape).viewer.filter_term = [])
    ∧ ((on_key { st with mode := Mode.FILTER } KeyEvt.escape).mode = Mode.NORMAL)
    ∧ ((on_key { st with mode := Mode.FILTER } KeyEvt.escape).inputVisible = false)
    ∧ ((on_key { st with mode := Mode.FILTER } KeyEvt.escape).viewer.search_term = [])
    ∧ ((on_key { st with mode := Mode.FILTER } KeyEvt.escape).viewer.filter_term = [])
    ∧ ((on_key { st with mode := Mode.INSERT } KeyEvt.escape).mode = Mode.NORMAL)
    ∧ ((on_key { st with mode := Mode.INSERT } KeyEvt.escape).inputVisible = false)
    ∧ ((on_key { st with mode := Mode.INSERT } KeyEvt.escape).viewer.search_term
        = st.viewer.search_term)
    ∧ ((on_key { st with mode := Mode.INSERT } KeyEvt.escape).viewer.filter_term
        = st.viewer.filter_term) := by
  refine ⟨?_, ?_, ?_, ?_, ?_, ?_, ?_, ?_, ?_, ?_, ?_, ?_⟩ <;>
    simp [on_key, action_normal_mode, clear_search, clear_filter, refresh_display]

/-- Claim C4 counterexample: pressing Escape in INSERT mode with a search
term set returns to NORMAL but leaves the search term in place, so Escape
from INSERT does not clear the terms as claimed. -/
theorem c4_counterexample_insert_escape_keeps_terms :
    (on_key stInsertWithSearch KeyEvt.escape).mode = Mode.NORMAL
    ∧ (on_key stInsertWithSearch KeyEvt.escape).viewer.search_term = ['x']
    ∧ (['x'] : Str) ≠ [] := by
  refine ⟨?_, ?_, ?_⟩
  · decide
  · decide
  · decide

/-- Claim C7 (amended): when the spawn attempt raises and no process is
alive, start_process appends one line describing the failure sourced
"stderr" (not "system"), leaves the process handle exactly as it was (so no
handle is installed when none was), and does not request application exit:
the session continues. -/
theorem c7_amended_spawn_failure (st : AppState) (e : Str) (now : Nat) :
    ((start_process { st with process := none } false e now).process = none)
    ∧ ((start_process { st with process := some false } false e now).process = some false)
    ∧ ((start_process { st with process := none } false e now).exited = st.exited)
    ∧ ((start_process { st with process := none } false e now).viewer.lines
        = st.viewer.lines
          ++ [{ content := rstripNlCr (("Failed to start command: ").toList ++ e),
                source := ("stderr").toList, timestamp := now,
                line_number := st.viewer.line_counter + 1 }]) := by
  refine ⟨?_, ?_, ?_, ?_⟩ <;>
    simp [start_process, processAlive, add_line, refresh_display]

/-- Claim C7 counterexample: a failed spawn from the fresh state appends a
line sourced "stderr", not the claimed "system". -/
theorem c7_counterexample_spawn_failure_source :
    (start_process appInit false [] 0).viewer.lines.map (fun l => l.source)
      = [("stderr").toList]
    ∧ ("stderr").toList ≠ ("system").toList := by
  constructor
  · decide
  · decide

/-- Claim C8 (amended): in the per-stream reader thread a read error stops
only that stream's reading, after posting every line read so far followed by
one error line sourced "stderr" (not "system"); in the select-based Unix
reader a read error breaks the whole loop, so everything after the error on
either stream is dropped: multiplexing stops for both streams, not only the
failing one. -/
theorem c8_amended_read_errors (src e : Str) (lns : List Str) (post : List ReadEvt) :
    read_stream_thread src (lns.map ReadEvt.line ++ ReadEvt.err e :: post)
      = lns.map (fun s => (s, src))
        ++ [(("Error reading ").toList ++ src ++ (": ").toList ++ e, ("stderr").toList)]
    ∧ ∀ (pre2 : List UnixEvt) (e2 : Str) (post2 : List UnixEvt),
        read_output_unix (pre2 ++ UnixEvt.err e2 :: post2)
          = read_output_unix (pre2 ++ [UnixEvt.err e2]) := by
  constructor
  · induction lns with
    | nil => simp [read_stream_thread]
    | cons s rest ih => simp [read_stream_thread, ih]
  · intro pre2 e2 post2
    induction pre2 with
    | nil => simp [read_output_unix]
    | cons evt rest ih =>
      cases evt with
      | ready s2 t2 => simp [read_output_unix, ih]
      | err msg => simp [read_output_unix]

/-- Claim C8 counterexample: in the Unix reader, a read error (here raised
while stdout was being handled) emits one "stderr"-sourced error line and
breaks the loop, so a line already pending on the other stream is never
surfaced: the error does not stop multiplexing for the failing stream
only, and the error line is not "system"-sourced. -/
theorem c8_counterexample_unix_error_stops_both :
    read_output_unix [UnixEvt.err (("x").toList), UnixEvt.ready UnixSrc.stderr (("y").toList)]
      = [(("Error reading output: x").toList, ("stderr").toList)]
    ∧ (("y").toList, ("stderr").toList) ∉
        read_output_unix [UnixEvt.err (("x").toList),
          UnixEvt.ready UnixSrc.stderr (("y").toList)]
    ∧ ("stderr").toList ≠ ("system").toList := by
  refine ⟨?_, ?_, ?_⟩
  · decide
  · decide
  · decide
